import Mathlib

/-!
Verification development for the SNV phylogenetics module (`scgenome/snvphylo.py`).

The module is embedded shallowly: pandas DataFrames become lists of records,
`np.searchsorted` becomes an explicit binary search, scipy's `binom.logpmf` and
`logsumexp` become their mathematical definitions over `ℝ`, and exceptions
(`raise ValueError`, `pd.concat` of an empty list) become `Except String`.

Conventions used throughout the embedding:
* A pandas float NaN arising from a missing copy-number annotation is modelled
  as `Option.none`; defined values are `Option.some`.
* `Real.log` of a nonpositive number is Mathlib's junk value `0` where the
  float code would produce `-inf`; every theorem below stays in the region
  where the argument of each logarithm is positive, except as noted.
* Row order of pandas groupby output (sorted by group key) is modelled as
  first-occurrence order; none of the properties below depend on the relative
  order of distinct group keys.
-/

/-- A row of a positions table (`pos` in `annotate_copy_number`): the
aggregated per-variant, per-cluster record produced by
`compute_snv_log_likelihoods`.  The `sample_id` field plays the role of the
`sample_col` grouping column (bound to `cluster_id` at the pipeline call
site). -/
structure PosRow where
  sample_id : String
  chrom : String
  coord : ℤ
  ref : String
  alt : String
  variant_id : String
  ref_counts : ℤ
  alt_counts : ℤ
  total_counts : ℤ
deriving DecidableEq

/-- A row of a segments table (`seg` in `annotate_copy_number`): a genomic
interval with attribute columns.  `attrs` gives the value of each named
attribute column; `sample_id` again stands for the `sample_col` column. -/
structure SegRow where
  sample_id : String
  chr : String
  start : ℤ
  end_ : ℤ
  attrs : String → ℤ

instance : Inhabited SegRow := ⟨⟨"", "", 0, 0, fun _ => 0⟩⟩

/-- An annotated position: the original point row plus the requested attribute
columns, each either a segment value or missing (`np.nan`). -/
structure AnnRow where
  pos : PosRow
  attrs : String → Option ℤ

/-- Binary search step of `np.searchsorted(a, v, side='left')`: narrow
`[lo, hi)` until empty, moving `lo` past elements `< v`.  The `fuel` argument
makes the recursion structural; `searchsorted` supplies `a.length` fuel, which
is enough for the search to run to completion. -/
def ssAux (a : List ℤ) (v : ℤ) : ℕ → ℕ → ℕ → ℕ
  | 0, lo, _ => lo
  | fuel + 1, lo, hi =>
    if lo < hi then
      let mid := (lo + hi) / 2
      if a.getD mid 0 < v then ssAux a v fuel (mid + 1) hi
      else ssAux a v fuel lo mid
    else lo

/-- `np.searchsorted(a, v, side='left')`: the insertion index of `v` in `a`. -/
def searchsorted (a : List ℤ) (v : ℤ) : ℕ := ssAux a v a.length 0 a.length

/-- `pandas.unique` order of a key column: distinct values in order of first
occurrence.  Fuel-based so that the kernel can evaluate it. -/
def uniqAux {α : Type} [DecidableEq α] : ℕ → List α → List α
  | _, [] => []
  | 0, _ :: _ => []
  | fuel + 1, x :: xs => x :: uniqAux fuel (xs.filter (fun y => decide (y ≠ x)))

/-- Distinct values of a list in order of first occurrence
(`Series.unique` / `DataFrame.drop_duplicates`). -/
def uniqKeys {α : Type} [DecidableEq α] (l : List α) : List α := uniqAux l.length l

/-- Sort order used by `seg.sort_values(['start', 'end'])`: lexicographic on
the (start, end) pair. -/
def segLE (a b : SegRow) : Prop :=
  a.start < b.start ∨ (a.start = b.start ∧ a.end_ ≤ b.end_)

instance : DecidableRel segLE := fun a b =>
  inferInstanceAs (Decidable (a.start < b.start ∨ (a.start = b.start ∧ a.end_ ≤ b.end_)))

/-- Strict version of `segLE`: on a list sorted by (start, end) with no
duplicate (start, end) pairs, consecutive rows are related by `segLT`. -/
def segLT (a b : SegRow) : Prop :=
  a.start < b.start ∨ (a.start = b.start ∧ a.end_ < b.end_)

instance : DecidableRel segLT := fun a b =>
  inferInstanceAs (Decidable (a.start < b.start ∨ (a.start = b.start ∧ a.end_ < b.end_)))

/-- `start_idx` of `find_overlapping_segments`:
`np.searchsorted(seg['start'].values, coord) - 1` (an integer, possibly -1). -/
def start_idx (seg : List SegRow) (c : ℤ) : ℤ :=
  (searchsorted (seg.map (·.start)) c : ℤ) - 1

/-- `end_idx` of `find_overlapping_segments`:
`np.searchsorted(seg['end'].values, coord)`. -/
def end_idx (seg : List SegRow) (c : ℤ) : ℕ :=
  searchsorted (seg.map (·.end_)) c

/-- The annotation of one position row against a (sorted) segment list: the
containment test `start_idx == end_idx` and, on success, the column lookup
`seg[col].iloc[end_idx]`. -/
def mkAnn (sseg : List SegRow) (columns : List String) (p : PosRow) : AnnRow :=
  { pos := p
    attrs := fun col =>
      if start_idx sseg p.coord = (end_idx sseg p.coord : ℤ) ∧ col ∈ columns then
        some ((sseg.getD (end_idx sseg p.coord) default).attrs col)
      else none }

/-- `find_overlapping_segments(pos, seg, columns)`: sort the segments by
(start, end), fail on duplicate (start, end) pairs
(`raise ValueError('duplicate columns')`), then annotate every position: a
position is contained when `start_idx == end_idx`, in which case each
requested column receives the value of segment `end_idx`, otherwise the
columns stay `np.nan` (here `none`). -/
def find_overlapping_segments (pos : List PosRow) (seg : List SegRow)
    (columns : List String) : Except String (List AnnRow) :=
  let sseg := List.insertionSort segLE seg
  if (sseg.map (fun g => (g.start, g.end_))).Nodup then
    Except.ok (pos.map (mkAnn sseg columns))
  else Except.error "duplicate columns"

/-- The position rows of one (sample, chromosome) partition:
`pos[pos[sample_col] == sample_id]` then `sample_pos[sample_pos['chrom'] == chrom]`. -/
def partPos (pos : List PosRow) (sc : String × String) : List PosRow :=
  (pos.filter (fun p => decide (p.sample_id = sc.1))).filter (fun p => decide (p.chrom = sc.2))

/-- The segment rows of one (sample, chromosome) partition:
`seg[seg[sample_col] == sample_id]` then `sample_seg[sample_seg['chr'] == chrom]`. -/
def partSeg (seg : List SegRow) (sc : String × String) : List SegRow :=
  (seg.filter (fun g => decide (g.sample_id = sc.1))).filter (fun g => decide (g.chr = sc.2))

/-- The partition loop of `annotate_copy_number`: for each (sample, chromosome)
pair, in order, annotate the matching positions against the matching segments;
the first `ValueError` aborts the loop, otherwise the per-partition results are
concatenated (`pd.concat(results)`). -/
def annotateParts (pos : List PosRow) (seg : List SegRow) (columns : List String) :
    List (String × String) → Except String (List AnnRow)
  | [] => Except.ok []
  | sc :: rest =>
    match find_overlapping_segments (partPos pos sc) (partSeg seg sc) columns with
    | Except.error e => Except.error e
    | Except.ok res =>
      match annotateParts pos seg columns rest with
      | Except.error e => Except.error e
      | Except.ok rest_res => Except.ok (res ++ rest_res)

/-- The (sample, chromosome) pairs enumerated by `annotate_copy_number`'s two
nested loops: `seg[sample_col].unique()` × `seg['chr'].unique()` (note: the
chromosome loop runs over the *whole* segments table, not the per-sample
subset). -/
def annParts (seg : List SegRow) : List (String × String) :=
  (uniqKeys (seg.map (·.sample_id))).flatMap
    (fun s => (uniqKeys (seg.map (·.chr))).map (fun c => (s, c)))

/-- `annotate_copy_number(pos, seg, columns, sample_col)`: iterate over the
distinct sample values of the *segments* table and the distinct chromosome
values of the *whole* segments table, annotate each partition, and concatenate.
`pd.concat` of an empty result list (empty segments table) raises, modelled as
an `Except.error`. -/
def annotate_copy_number (pos : List PosRow) (seg : List SegRow)
    (columns : List String) : Except String (List AnnRow) :=
  if (annParts seg).isEmpty then Except.error "no objects to concatenate"
  else annotateParts pos seg columns (annParts seg)

/-- `log_binomial_pdf(x, n, p) = scipy.stats.binom.logpmf(x, n, p)`: the log of
the binomial probability mass function.  Out-of-support float behaviour
(`-inf`) falls into `Real.log`'s junk region and is not relied upon. -/
noncomputable def log_binomial_pdf (x n : ℤ) (p : ℝ) : ℝ :=
  Real.log ((n.toNat.choose x.toNat : ℝ) * p ^ x.toNat * (1 - p) ^ (n.toNat - x.toNat))

/-- `scipy.misc.logsumexp`: log of the sum of exponentials. -/
noncomputable def log_sum_exp (l : List ℝ) : ℝ := Real.log (l.map Real.exp).sum

/-- `log_likelihood_absent(e_s, n_v, n_t)`: binomial log-likelihood of the
variant read count under the error-rate model. -/
noncomputable def log_likelihood_absent (e_s : ℝ) (n_v n_t : ℤ) : ℝ :=
  log_binomial_pdf n_v n_t e_s

/-- `log_likelihood_present(c_m, c_t, e_s, n_v, n_t)`: if the major copy number
is zero, fall back to the absent model; otherwise marginalize (log-sum-exp)
over the variant copy number `c_v = 1 .. c_m`
(`np.arange(1., c_m + 1., 1.)`), each with expected VAF `c_v / c_t`. -/
noncomputable def log_likelihood_present (c_m c_t : ℤ) (e_s : ℝ) (n_v n_t : ℤ) : ℝ :=
  if c_m = 0 then log_likelihood_absent e_s n_v n_t
  else log_sum_exp ((List.range c_m.toNat).map
    (fun (i : ℕ) => log_binomial_pdf n_v n_t (((i : ℝ) + 1) / (c_t : ℝ))))

/-- `calculate_likelihood_absent(row, e_s)`. -/
noncomputable def calculate_likelihood_absent (row : AnnRow) (e_s : ℝ) : ℝ :=
  log_likelihood_absent e_s row.pos.alt_counts (row.pos.alt_counts + row.pos.ref_counts)

/-- `calculate_likelihood_present(row, e_s)`: reads `major_cn` and `minor_cn`
from the annotated row.  When `major_cn` is `np.nan` (point not covered by any
segment), `c_m == 0` is false, so `np.arange(1., c_m + 1., 1.)` receives a NaN
stop value and numpy raises `ValueError: cannot convert float NaN to integer`.
When `major_cn` is defined but `minor_cn` is `np.nan` (impossible in the
pipeline, which sets the attribute columns together): with `c_m == 0` the
absent fallback returns normally, otherwise every VAF `c_v / c_t` is NaN and
the result is the float NaN, modelled `none`. -/
noncomputable def calculate_likelihood_present (row : AnnRow) (e_s : ℝ) :
    Except String (Option ℝ) :=
  match row.attrs "major_cn", row.attrs "minor_cn" with
  | some c_m, some c_mi =>
      Except.ok (some (log_likelihood_present c_m (c_m + c_mi) e_s
        row.pos.alt_counts (row.pos.ref_counts + row.pos.alt_counts)))
  | some c_m, none =>
      if c_m = 0 then
        Except.ok (some (log_likelihood_absent e_s row.pos.alt_counts
          (row.pos.ref_counts + row.pos.alt_counts)))
      else Except.ok none
  | none, _ => Except.error "cannot convert float NaN to integer"

/-- Output row of `compute_log_likelihoods`: the annotated row with the two
log-likelihood columns appended (`none` standing for a float NaN entry). -/
structure OutRow where
  ann : AnnRow
  log_likelihood_absent : ℝ
  log_likelihood_present : Option ℝ

/-- The row loop of `df.apply(calculate_likelihood_present, axis=1)` on line
92: rows are evaluated in order and the first `ValueError` aborts the whole
stage.  The absent column (line 91) is computed for every row first, but a
later raise means the caller never observes it, so a single pass is
observationally equivalent for the returned value. -/
noncomputable def computeRows (e : ℝ) : List AnnRow → Except String (List OutRow)
  | [] => Except.ok []
  | row :: rest =>
    match calculate_likelihood_present row e with
    | Except.error msg => Except.error msg
    | Except.ok v =>
      match computeRows e rest with
      | Except.error msg => Except.error msg
      | Except.ok outs =>
        Except.ok ({ ann := row
                     log_likelihood_absent := calculate_likelihood_absent row e
                     log_likelihood_present := v } :: outs)

/-- `compute_log_likelihoods(df, error_rate)`: `df.apply` of both likelihood
functions over every row.  On an empty frame `df.apply(..., axis=1)` raises
while probing the function for the result shape (the `row['alt_counts']`
access fails); on a nonempty frame the stage raises at the first row whose
copy number is NaN, otherwise it returns the table with both columns set. -/
noncomputable def compute_log_likelihoods (df : List AnnRow) (error_rate : ℝ) :
    Except String (List OutRow) :=
  if df.isEmpty then Except.error "alt_counts"
  else computeRows error_rate df

/-- A row of the raw SNV read-count table `snv_data`. -/
structure SnvRow where
  sample_id : String
  chrom : String
  ref : String
  alt : String
  coord : ℤ
  ref_counts : ℤ
  alt_counts : ℤ
deriving DecidableEq

/-- A row of the cluster-assignment table `clusters`. -/
structure ClusterRow where
  sample_id : String
  cluster_id : String
deriving DecidableEq

/-- A row of `snv_data.merge(clusters)`. -/
structure MRow where
  sample_id : String
  chrom : String
  ref : String
  alt : String
  cluster_id : String
  coord : ℤ
  ref_counts : ℤ
  alt_counts : ℤ
deriving DecidableEq

/-- `snv_data.merge(clusters)`: inner join on the shared `sample_id` column;
every read row is paired with every matching assignment row. -/
def mergeClusters (snv_data : List SnvRow) (clusters : List ClusterRow) : List MRow :=
  snv_data.flatMap (fun r =>
    (clusters.filter (fun a => decide (a.sample_id = r.sample_id))).map (fun a =>
      { sample_id := r.sample_id, chrom := r.chrom, ref := r.ref, alt := r.alt
        cluster_id := a.cluster_id, coord := r.coord
        ref_counts := r.ref_counts, alt_counts := r.alt_counts }))

/-- The variant-locus part of the groupby key. -/
abbrev Locus := String × ℤ × String × String

/-- The locus of a merged read row. -/
def snvLocus (m : MRow) : Locus := (m.chrom, m.coord, m.ref, m.alt)

/-- A row of the aggregated count matrix `snv_matrix`. -/
structure AggRow where
  chrom : String
  ref : String
  alt : String
  cluster_id : String
  coord : ℤ
  ref_counts : ℤ
  alt_counts : ℤ
deriving DecidableEq

/-- One cell of the unstacked count matrix: the (locus, cluster) row whose
counts are the sums over all matching merged read rows — zero sums (empty
filter) are exactly the `fillna(0)` backfill. -/
def aggRow (merged : List MRow) (l : Locus) (c : String) : AggRow :=
  { chrom := l.1, coord := l.2.1, ref := l.2.2.1, alt := l.2.2.2, cluster_id := c
    alt_counts := ((merged.filter
        (fun m => decide (snvLocus m = l ∧ m.cluster_id = c))).map (·.alt_counts)).sum
    ref_counts := ((merged.filter
        (fun m => decide (snvLocus m = l ∧ m.cluster_id = c))).map (·.ref_counts)).sum }

/-- The `groupby(...).sum().unstack().fillna(0).astype(int).stack()` step:
one row per (locus appearing in the merged data) × (cluster appearing in the
merged data). -/
def aggregateCounts (merged : List MRow) : List AggRow :=
  (uniqKeys (merged.map snvLocus)).flatMap
    (fun l => (uniqKeys (merged.map (·.cluster_id))).map (aggRow merged l))

/-- The `total_counts` / `variant_id` columns of `snv_matrix`, and the shift of
the `cluster_id` column into the annotator's `sample_col` role. -/
def aggToPos (r : AggRow) : PosRow :=
  { sample_id := r.cluster_id, chrom := r.chrom, coord := r.coord
    ref := r.ref, alt := r.alt
    variant_id := String.intercalate ":" [r.chrom, toString r.coord, r.ref, r.alt]
    ref_counts := r.ref_counts, alt_counts := r.alt_counts
    total_counts := r.ref_counts + r.alt_counts }

/-- A row of the copy-number segments table `allele_cn`.  The copy-number
columns arrive as (possibly fractional) numeric values, hence `ℚ`. -/
structure CnRow where
  chr : String
  cluster_id : String
  start : ℤ
  end_ : ℤ
  total_cn : ℚ
  minor_cn : ℚ
  major_cn : ℚ
deriving DecidableEq

/-- numpy `.astype(int)` on a float column: truncation toward zero. -/
def truncQ (q : ℚ) : ℤ := Int.tdiv q.num q.den

/-- The in-place `allele_cn[c] = allele_cn[c].astype(int)` casts of
`compute_snv_log_likelihoods`: this is the state of the *caller's*
`allele_cn` table after the call. -/
def cnCast (g : CnRow) : CnRow :=
  { g with total_cn := (truncQ g.total_cn : ℚ)
           minor_cn := (truncQ g.minor_cn : ℚ)
           major_cn := (truncQ g.major_cn : ℚ) }

/-- View of a (cast) copy-number row as a segments-table row for the annotator,
with `cluster_id` in the `sample_col` position and the three copy-number
attribute columns. -/
def cnToSeg (g : CnRow) : SegRow :=
  { sample_id := g.cluster_id, chr := g.chr, start := g.start, end_ := g.end_
    attrs := fun col =>
      if col = "major_cn" then truncQ g.major_cn
      else if col = "minor_cn" then truncQ g.minor_cn
      else if col = "total_cn" then truncQ g.total_cn
      else 0 }

/-- `compute_snv_log_likelihoods(snv_data, allele_cn, clusters)`.  The first
component is the returned table (or the raised error); the second component is
the caller's `allele_cn` table as it stands after the call.  When the
read/cluster join is empty, `stack()` of the empty unstacked frame drops the
count columns and the `total_counts` assignment on line 61 raises `KeyError`
*before* the in-place `astype(int)` casts, so the caller's table is left
untouched; otherwise the casts on lines 68-70 mutate it in place before the
local `drop_duplicates` rebinding. -/
noncomputable def compute_snv_log_likelihoods (snv_data : List SnvRow)
    (allele_cn : List CnRow) (clusters : List ClusterRow) :
    Except String (List OutRow) × List CnRow :=
  if (mergeClusters snv_data clusters).isEmpty then
    (Except.error "ref_counts", allele_cn)
  else
    let snv_matrix := aggregateCounts (mergeClusters snv_data clusters)
    let pos := snv_matrix.map aggToPos
    let allele_cn2 := allele_cn.map cnCast
    let segs := (uniqKeys allele_cn2).map cnToSeg
    (match annotate_copy_number pos segs ["major_cn", "minor_cn", "total_cn"] with
     | Except.error e => Except.error e
     | Except.ok ann => compute_log_likelihoods ann (1 / 1000),
     allele_cn2)

/-! ## Concrete fixtures used to instantiate the theorems below -/

/-- A single copy-number segment on chromosome "1", cluster "c1", covering
coordinates 0 to 10, with every attribute equal to 2. -/
def segW : SegRow := { sample_id := "c1", chr := "1", start := 0, end_ := 10, attrs := fun _ => 2 }

/-- A segment row for cluster "b" (used to show that positions of other
clusters are dropped). -/
def segB : SegRow := { sample_id := "b", chr := "1", start := 0, end_ := 10, attrs := fun _ => 2 }

/-- A position row for cluster "a", chromosome "1", coordinate 5. -/
def posA : PosRow :=
  { sample_id := "a", chrom := "1", coord := 5, ref := "A", alt := "T"
    variant_id := "1:5:A:T", ref_counts := 8, alt_counts := 2, total_counts := 10 }

/-- A copy-number row with fractional copy-number values (as produced by
upstream copy-number callers); 5/2 and 3/2 are built as explicit rationals. -/
def cnHalf : CnRow :=
  { chr := "1", cluster_id := "c1", start := 0, end_ := 200
    total_cn := ⟨5, 2, by norm_num, by norm_num⟩, minor_cn := 1
    major_cn := ⟨3, 2, by norm_num, by norm_num⟩ }

/-- An all-integral copy-number row. -/
def cnInt : CnRow :=
  { chr := "1", cluster_id := "c1", start := 0, end_ := 200
    total_cn := 2, minor_cn := 1, major_cn := 1 }

/-- Whether a pipeline invocation returned a table rather than raising. -/
def exceptOk {ε α : Type} : Except ε α → Bool
  | Except.ok _ => true
  | Except.error _ => false

/-- A raw SNV read row for sample "s1". -/
def snvR : SnvRow :=
  { sample_id := "s1", chrom := "1", ref := "A", alt := "T"
    coord := 100, ref_counts := 8, alt_counts := 2 }

/-- A cluster-assignment table in which sample "s1" appears in two rows. -/
def clusDup : List ClusterRow :=
  [{ sample_id := "s1", cluster_id := "c1" }, { sample_id := "s1", cluster_id := "c2" }]

/-- A single-row cluster assignment table. -/
def clusOne : List ClusterRow := [{ sample_id := "s1", cluster_id := "c1" }]

/-! ## General helper lemmas -/

theorem ssAux_bounds (a : List ℤ) (v : ℤ) :
    ∀ (fuel lo hi : ℕ), lo ≤ hi →
      lo ≤ ssAux a v fuel lo hi ∧ ssAux a v fuel lo hi ≤ hi := by
  intro fuel
  induction fuel with
  | zero => intro lo hi h; exact ⟨le_refl lo, h⟩
  | succ n ih =>
    intro lo hi h
    rw [ssAux]
    by_cases hlt : lo < hi
    · rw [if_pos hlt]
      by_cases hmid : a.getD ((lo + hi) / 2) 0 < v
      · rw [if_pos hmid]
        have h1 : (lo + hi) / 2 + 1 ≤ hi := by omega
        have := ih ((lo + hi) / 2 + 1) hi h1
        exact ⟨le_trans (by omega) this.1, this.2⟩
      · rw [if_neg hmid]
        have h1 : lo ≤ (lo + hi) / 2 := by omega
        have := ih lo ((lo + hi) / 2) h1
        exact ⟨this.1, le_trans this.2 (by omega)⟩
    · rw [if_neg hlt]; exact ⟨le_refl lo, h⟩

theorem searchsorted_le_length (a : List ℤ) (v : ℤ) : searchsorted a v ≤ a.length :=
  (ssAux_bounds a v a.length 0 a.length (Nat.zero_le _)).2

theorem mem_uniqAux {α : Type} [DecidableEq α] (x : α) :
    ∀ (fuel : ℕ) (l : List α), l.length ≤ fuel → (x ∈ uniqAux fuel l ↔ x ∈ l) := by
  intro fuel
  induction fuel with
  | zero =>
    intro l h
    interval_cases h' : l.length
    · rw [List.length_eq_zero] at h'
      subst h'; rfl
  | succ n ih =>
    intro l h
    match l with
    | [] => rfl
    | y :: ys =>
      rw [uniqAux]
      have hlen : (ys.filter (fun z => decide (z ≠ y))).length ≤ n :=
        le_trans (List.length_filter_le _ ys) (by simpa using h)
      simp only [List.mem_cons, ih _ hlen, List.mem_filter, decide_eq_true_eq]
      by_cases hxy : x = y
      · simp [hxy]
      · simp [hxy]

theorem mem_uniqKeys {α : Type} [DecidableEq α] (x : α) (l : List α) :
    x ∈ uniqKeys l ↔ x ∈ l :=
  mem_uniqAux x l.length l (le_refl _)

theorem nodup_uniqAux {α : Type} [DecidableEq α] :
    ∀ (fuel : ℕ) (l : List α), l.length ≤ fuel → (uniqAux fuel l).Nodup := by
  intro fuel
  induction fuel with
  | zero =>
    intro l h
    match l with
    | [] => exact List.nodup_nil
    | y :: ys => simp at h
  | succ n ih =>
    intro l h
    match l with
    | [] => exact List.nodup_nil
    | y :: ys =>
      rw [uniqAux]
      have hlen : (ys.filter (fun z => decide (z ≠ y))).length ≤ n :=
        le_trans (List.length_filter_le _ ys) (by simpa using h)
      refine List.Nodup.cons ?_ (ih _ hlen)
      intro hy
      have := (mem_uniqAux y n _ hlen).mp hy
      simp at this

theorem nodup_uniqKeys {α : Type} [DecidableEq α] (l : List α) : (uniqKeys l).Nodup :=
  nodup_uniqAux l.length l (le_refl _)

theorem list_range_map_sum (n : ℕ) (f : ℕ → ℝ) :
    ((List.range n).map f).sum = ∑ i in Finset.range n, f i := by
  induction n with
  | zero => simp
  | succ n ih => rw [List.range_succ]; simp [ih, Finset.sum_range_succ]

theorem sum_range_shift_Icc (m : ℕ) (g : ℕ → ℝ) :
    ∑ i in Finset.range m, g (i + 1) = ∑ j in Finset.Icc 1 m, g j := by
  have h : Finset.Icc 1 m = Finset.Ico 1 (m + 1) := (Nat.Ico_succ_right 1 m).symm
  rw [h, Finset.sum_Ico_eq_sum_range]
  simp [add_comm]

/-! ## C4: major_cn = 0 degenerates the present model to the absent model -/

/-- C4: for every record with `major_cn = 0` (so the `c_t` argument is
`0 + minor_cn`) and all counts and error rates in range,
`log_likelihood_present` returns exactly `log_likelihood_absent` at the same
counts and error rate. -/
theorem present_major_zero_eq_absent (mi n_r n_v : ℤ) (e_s : ℝ)
    (he0 : 0 < e_s) (he1 : e_s < 1) :
    log_likelihood_present 0 (0 + mi) e_s n_v (n_r + n_v) =
      log_likelihood_absent e_s n_v (n_r + n_v) := by
  rw [log_likelihood_present, if_pos rfl]

theorem present_major_zero_eq_absent_witness :
    (0 : ℝ) < 1 / 1000 ∧ (1 : ℝ) / 1000 < 1 ∧
      log_likelihood_present 0 (0 + 2) (1 / 1000) 2 (8 + 2) =
        log_likelihood_absent (1 / 1000) 2 (8 + 2) :=
  ⟨by norm_num, by norm_num,
    present_major_zero_eq_absent 2 8 2 (1 / 1000) (by norm_num) (by norm_num)⟩

/-! ## C1: the present model is the log-sum-exp marginal over c_v = 1..major_cn -/

/-- C1: for every record with `major_cn ≥ 1`, nonnegative counts and an error
rate in (0,1), `log_likelihood_present(major_cn, major_cn + minor_cn,
error_rate, alt_counts, ref_counts + alt_counts)` is the log-sum-exp over the
candidate mutated copy numbers `c_v = 1, ..., major_cn` of
`logBinomialPMF(alt_counts, total_counts, c_v / (major_cn + minor_cn))`,
with `total_counts = ref_counts + alt_counts`. -/
theorem present_is_logsumexp_marginal (c_m mi n_r n_v : ℤ) (e_s : ℝ)
    (h1 : 1 ≤ c_m) (hr : 0 ≤ n_r) (hv : 0 ≤ n_v) (he0 : 0 < e_s) (he1 : e_s < 1) :
    log_likelihood_present c_m (c_m + mi) e_s n_v (n_r + n_v) =
      Real.log (∑ c_v in Finset.Icc 1 c_m.toNat,
        Real.exp (log_binomial_pdf n_v (n_r + n_v) ((c_v : ℝ) / ((c_m : ℝ) + (mi : ℝ))))) := by
  have hne : c_m ≠ 0 := by omega
  rw [log_likelihood_present, if_neg hne, log_sum_exp, List.map_map]
  congr 1
  rw [list_range_map_sum]
  have hcast : ((c_m + mi : ℤ) : ℝ) = (c_m : ℝ) + (mi : ℝ) := by push_cast; ring
  rw [← sum_range_shift_Icc c_m.toNat
    (fun j => Real.exp (log_binomial_pdf n_v (n_r + n_v) ((j : ℝ) / ((c_m : ℝ) + (mi : ℝ)))))]
  refine Finset.sum_congr rfl ?_
  intro i _
  simp only [Function.comp_apply, hcast]
  norm_num

theorem present_is_logsumexp_marginal_witness :
    (1 : ℤ) ≤ 2 ∧ (0 : ℤ) ≤ 8 ∧ (0 : ℤ) ≤ 2 ∧ (0 : ℝ) < 1 / 1000 ∧ (1 : ℝ) / 1000 < 1 ∧
      log_likelihood_present 2 (2 + 1) (1 / 1000) 2 (8 + 2) =
        Real.log (∑ c_v in Finset.Icc 1 (2 : ℤ).toNat,
          Real.exp (log_binomial_pdf 2 (8 + 2) ((c_v : ℝ) / (((2 : ℤ) : ℝ) + ((1 : ℤ) : ℝ))))) :=
  ⟨by norm_num, by norm_num, by norm_num, by norm_num, by norm_num,
    present_is_logsumexp_marginal 2 1 8 2 (1 / 1000)
      (by norm_num) (by norm_num) (by norm_num) (by norm_num) (by norm_num)⟩

/-! ## C10: the containment test implies the attribute lookup is in bounds -/

/-- C10: for a sorted, duplicate-free segment list, whenever the containment
test `start_idx == end_idx` holds for a point coordinate, `end_idx` is a valid
row index (`0 ≤ end_idx < number of segments`) — so `seg[col].iloc[end_idx]`
is always in bounds — and the segment list is in particular nonempty: a
partition with zero segments never marks any point as contained. -/
theorem contained_end_idx_in_bounds (seg : List SegRow) (c : ℤ)
    (hsorted : List.Pairwise segLT seg)
    (hmask : start_idx seg c = (end_idx seg c : ℤ)) :
    (0 : ℤ) ≤ (end_idx seg c : ℤ) ∧ end_idx seg c < seg.length ∧ seg ≠ [] := by
  have hs : searchsorted (seg.map (·.start)) c ≤ seg.length := by
    have := searchsorted_le_length (seg.map (·.start)) c
    simpa using this
  have he : end_idx seg c ≤ seg.length := by
    have := searchsorted_le_length (seg.map (·.end_)) c
    simpa [end_idx] using this
  rw [start_idx] at hmask
  have hlt : end_idx seg c < seg.length := by omega
  refine ⟨by positivity, hlt, ?_⟩
  intro hnil
  rw [hnil] at hlt
  simp at hlt

theorem contained_end_idx_in_bounds_witness :
    List.Pairwise segLT [segW] ∧
      start_idx [segW] 5 = (end_idx [segW] 5 : ℤ) ∧
      ((0 : ℤ) ≤ (end_idx [segW] 5 : ℤ) ∧ end_idx [segW] 5 < [segW].length ∧
        ([segW] : List SegRow) ≠ []) :=
  ⟨List.pairwise_singleton _ _, by decide,
    contained_end_idx_in_bounds [segW] 5 (List.pairwise_singleton _ _) (by decide)⟩

/-! ## Counting helper lemmas for the annotator -/

theorem count_filter_eq {α : Type} [DecidableEq α] (p : α → Bool) (a : α) :
    ∀ l : List α, (l.filter p).count a = if p a = true then l.count a else 0 := by
  intro l
  induction l with
  | nil => simp
  | cons x xs ih =>
    by_cases hpx : p x = true
    · by_cases hax : x = a
      · subst hax
        simp [List.filter_cons, hpx, List.count_cons, ih]
      · simp [List.filter_cons, hpx, List.count_cons, ih, hax]
    · by_cases hax : x = a
      · subst hax
        simp [List.filter_cons, hpx, List.count_cons, ih]
      · simp [List.filter_cons, hpx, List.count_cons, ih, hax]

theorem count_flatMap {α β : Type} [DecidableEq β] (f : α → List β) (b : β) :
    ∀ l : List α, (l.flatMap f).count b = (l.map (fun x => (f x).count b)).sum := by
  intro l
  induction l with
  | nil => simp
  | cons x xs ih => simp [List.flatMap_cons, List.count_append, ih]

theorem sum_map_ite_eq {α : Type} [DecidableEq α] (k : α) (n : ℕ) :
    ∀ parts : List α, parts.Nodup →
      (parts.map (fun sc => if k = sc then n else 0)).sum = if k ∈ parts then n else 0 := by
  intro parts
  induction parts with
  | nil => simp
  | cons x xs ih =>
    intro hnd
    rcases List.nodup_cons.mp hnd with ⟨hx, hxs⟩
    by_cases hkx : k = x
    · subst hkx
      have : ∀ sc ∈ xs, (if k = sc then n else 0) = 0 := by
        intro sc hsc
        rw [if_neg]
        intro h
        exact hx (h ▸ hsc)
      have hz : (List.map (fun sc => if k = sc then n else 0) xs).sum = 0 := by
        apply List.sum_eq_zero
        intro y hy
        rcases List.mem_map.mp hy with ⟨sc, hsc, rfl⟩
        exact this sc hsc
      rw [List.map_cons, List.sum_cons, if_pos rfl, if_pos (List.mem_cons_self k xs), hz]
      omega
    · simp only [List.map_cons, List.sum_cons, if_neg hkx, ih hxs]
      by_cases hmem : k ∈ xs
      · simp [hmem, List.mem_cons, hkx]
      · simp [hmem, List.mem_cons, hkx]

/-! ## Structural lemmas about the annotator -/

theorem mkAnn_pos (sseg : List SegRow) (cols : List String) (p : PosRow) :
    (mkAnn sseg cols p).pos = p := rfl

theorem mem_partSeg (seg : List SegRow) (sc : String × String) (g : SegRow) :
    g ∈ partSeg seg sc ↔ g ∈ seg ∧ g.sample_id = sc.1 ∧ g.chr = sc.2 := by
  simp only [partSeg, List.mem_filter, decide_eq_true_eq]
  tauto

theorem mem_partPos (pos : List PosRow) (sc : String × String) (p : PosRow) :
    p ∈ partPos pos sc ↔ p ∈ pos ∧ p.sample_id = sc.1 ∧ p.chrom = sc.2 := by
  simp only [partPos, List.mem_filter, decide_eq_true_eq]
  tauto

theorem mem_annParts (seg : List SegRow) (sc : String × String) :
    sc ∈ annParts seg ↔
      sc.1 ∈ seg.map (·.sample_id) ∧ sc.2 ∈ seg.map (·.chr) := by
  rcases sc with ⟨s, c⟩
  simp [annParts, List.mem_flatMap, mem_uniqKeys]

theorem nodup_annParts (seg : List SegRow) : (annParts seg).Nodup := by
  rw [annParts, List.nodup_flatMap]
  constructor
  · intro s _
    exact (nodup_uniqKeys _).map (fun c c' h => by simpa using congrArg Prod.snd h)
  · have h := nodup_uniqKeys (seg.map (·.sample_id))
    rw [List.Nodup] at h
    refine h.imp_of_mem ?_
    intro s s' _ _ hne
    intro x hx hx'
    rcases List.mem_map.mp hx with ⟨c, _, rfl⟩
    rcases List.mem_map.mp hx' with ⟨c', _, heq⟩
    exact hne (by simpa using congrArg Prod.fst heq.symm)

/-- If every partition's sorted segment list passes the duplicate-boundary
check, the partition loop succeeds and returns the concatenation of the
per-partition annotations. -/
theorem annotateParts_eq_ok (pos : List PosRow) (seg : List SegRow) (cols : List String) :
    ∀ parts : List (String × String),
      (∀ sc ∈ parts,
        ((List.insertionSort segLE (partSeg seg sc)).map (fun g => (g.start, g.end_))).Nodup) →
      annotateParts pos seg cols parts =
        Except.ok (parts.flatMap (fun sc =>
          (partPos pos sc).map (mkAnn (List.insertionSort segLE (partSeg seg sc)) cols))) := by
  intro parts
  induction parts with
  | nil => intro _; rfl
  | cons sc rest ih =>
    intro h
    rw [annotateParts, find_overlapping_segments]
    simp only [if_pos (h sc (List.mem_cons_self sc rest))]
    rw [ih (fun x hx => h x (List.mem_cons_of_mem sc hx))]
    rw [List.flatMap_cons]

/-- A partition of a segments table with no duplicated
(sample, chromosome, start, end) quadruple passes the per-partition
duplicate-(start, end) check, also after sorting. -/
theorem partSeg_sorted_keys_nodup (seg : List SegRow)
    (hndup : (seg.map (fun g => (g.sample_id, g.chr, g.start, g.end_))).Nodup)
    (sc : String × String) :
    ((List.insertionSort segLE (partSeg seg sc)).map (fun g => (g.start, g.end_))).Nodup := by
  have hsub : List.Sublist (partSeg seg sc) seg :=
    (List.filter_sublist _).trans (List.filter_sublist _)
  have h1 : ((partSeg seg sc).map (fun g => (g.sample_id, g.chr, g.start, g.end_))).Nodup :=
    hndup.sublist (hsub.map _)
  have h2 : ((partSeg seg sc).map (fun g => (g.start, g.end_))).Nodup := by
    rw [List.Nodup, List.pairwise_map] at h1 ⊢
    refine h1.imp_of_mem ?_
    intro a b ha hb hne heq
    rcases (mem_partSeg seg sc a).mp ha with ⟨_, has, hac⟩
    rcases (mem_partSeg seg sc b).mp hb with ⟨_, hbs, hbc⟩
    apply hne
    have h3 : a.start = b.start ∧ a.end_ = b.end_ := by
      constructor
      · simpa using congrArg Prod.fst heq
      · simpa using congrArg Prod.snd heq
    rw [has, hbs, hac, hbc, h3.1, h3.2]
  exact (((List.perm_insertionSort segLE (partSeg seg sc)).map _).nodup_iff).mpr h2

theorem count_partPos (pos : List PosRow) (sc : String × String) (x : PosRow) :
    (partPos pos sc).count x =
      if (x.sample_id, x.chrom) = sc then pos.count x else 0 := by
  rw [partPos, count_filter_eq, count_filter_eq]
  rcases sc with ⟨s, c⟩
  by_cases h1 : x.sample_id = s
  · by_cases h2 : x.chrom = c
    · simp [h1, h2]
    · simp [h1, h2, Prod.ext_iff]
  · by_cases h2 : x.chrom = c
    · simp [h1, h2, Prod.ext_iff]
    · simp [h1, h2, Prod.ext_iff]

/-- The rows surviving the partition loop are, as a multiset, exactly the
input rows whose (sample, chromosome) pair is enumerated by the loop. -/
theorem flatMap_partPos_perm (pos : List PosRow) (parts : List (String × String))
    (hnd : parts.Nodup) :
    (parts.flatMap (fun sc => partPos pos sc)).Perm
      (pos.filter (fun p => decide ((p.sample_id, p.chrom) ∈ parts))) := by
  rw [List.perm_iff_count]
  intro x
  rw [count_flatMap, count_filter_eq]
  have : ∀ sc : String × String,
      (fun sc => (partPos pos sc).count x) sc =
        (fun sc => if (x.sample_id, x.chrom) = sc then pos.count x else 0) sc := by
    intro sc
    exact count_partPos pos sc x
  rw [List.map_congr_left (fun sc _ => this sc)]
  rw [sum_map_ite_eq (x.sample_id, x.chrom) (pos.count x) parts hnd]
  by_cases hmem : (x.sample_id, x.chrom) ∈ parts
  · simp [hmem]
  · simp [hmem]

/-! ## C2: which input rows survive annotation -/

/-- C2 counterexample: a points table with one row whose sample value ("a")
does not occur in the segments table (whose only sample value is "b") yields
an annotated result with zero rows — the input row is dropped, not kept with
missing attributes. -/
theorem annotate_drops_unmatched_sample_cex :
    annotate_copy_number [posA] [segB] ["major_cn"] = Except.ok [] ∧
      [posA].length = 1 :=
  ⟨rfl, rfl⟩

/-- C2 (amended): the annotated result consists, up to the regrouping order of
the two partition loops, of exactly those input rows whose sample value occurs
in the segments table's sample column and whose chromosome occurs in the
segments table's chromosome column (other rows are dropped); a surviving row
whose own (sample, chromosome) partition contains zero segments still appears,
with every attribute column missing. -/
theorem annotate_keeps_segment_matched_rows (pos : List PosRow) (seg : List SegRow)
    (cols : List String)
    (hndup : (seg.map (fun g => (g.sample_id, g.chr, g.start, g.end_))).Nodup)
    (hne : seg ≠ []) :
    ∃ res, annotate_copy_number pos seg cols = Except.ok res ∧
      (res.map (·.pos)).Perm (pos.filter (fun p =>
        decide (p.sample_id ∈ seg.map (·.sample_id) ∧ p.chrom ∈ seg.map (·.chr)))) ∧
      ∀ row ∈ res,
        (∀ g ∈ seg, ¬(g.sample_id = row.pos.sample_id ∧ g.chr = row.pos.chrom)) →
        ∀ col, row.attrs col = none := by
  have hparts : ¬((annParts seg).isEmpty = true) := by
    rcases List.exists_mem_of_ne_nil seg hne with ⟨g, hg⟩
    have hmem : (g.sample_id, g.chr) ∈ annParts seg :=
      (mem_annParts seg (g.sample_id, g.chr)).mpr
        ⟨List.mem_map_of_mem _ hg, List.mem_map_of_mem _ hg⟩
    intro hemp
    rw [List.isEmpty_iff] at hemp
    rw [hemp] at hmem
    exact (List.not_mem_nil _) hmem
  rw [annotate_copy_number, if_neg hparts,
    annotateParts_eq_ok pos seg cols _ (fun sc _ => partSeg_sorted_keys_nodup seg hndup sc)]
  refine ⟨_, rfl, ?_, ?_⟩
  · rw [List.map_flatMap]
    have hinner : (fun sc => ((partPos pos sc).map
        (mkAnn (List.insertionSort segLE (partSeg seg sc)) cols)).map (·.pos)) =
        (fun sc => partPos pos sc) := by
      funext sc
      rw [List.map_map]
      have hid : ((fun (r : AnnRow) => r.pos) ∘
          mkAnn (List.insertionSort segLE (partSeg seg sc)) cols) = id := rfl
      rw [hid, List.map_id]
    rw [hinner]
    have hfil : pos.filter (fun p => decide ((p.sample_id, p.chrom) ∈ annParts seg)) =
        pos.filter (fun p => decide (p.sample_id ∈ seg.map (·.sample_id) ∧
          p.chrom ∈ seg.map (·.chr))) :=
      List.filter_congr (fun p _ =>
        decide_eq_decide.mpr (mem_annParts seg (p.sample_id, p.chrom)))
    exact hfil ▸ flatMap_partPos_perm pos (annParts seg) (nodup_annParts seg)
  · intro row hrow hnoseg col
    rcases List.mem_flatMap.mp hrow with ⟨sc, _, hrow2⟩
    rcases List.mem_map.mp hrow2 with ⟨p, hp, rfl⟩
    rcases (mem_partPos pos sc p).mp hp with ⟨_, hps, hpc⟩
    have hseg0 : partSeg seg sc = [] := by
      rw [List.eq_nil_iff_forall_not_mem]
      intro g hgmem
      rcases (mem_partSeg seg sc g).mp hgmem with ⟨hgseg, hgs, hgc⟩
      refine hnoseg g hgseg ⟨?_, ?_⟩
      · rw [mkAnn_pos, hgs, hps]
      · rw [mkAnn_pos, hgc, hpc]
    rw [hseg0]
    show (mkAnn (List.insertionSort segLE []) cols p).attrs col = none
    simp only [mkAnn, List.insertionSort]
    rw [if_neg]
    intro hcontr
    have h1 : start_idx [] p.coord = -1 := rfl
    have h2 : end_idx [] p.coord = 0 := rfl
    rw [h1, h2] at hcontr
    simp at hcontr

theorem annotate_keeps_segment_matched_rows_witness :
    (([segW] : List SegRow).map (fun g => (g.sample_id, g.chr, g.start, g.end_))).Nodup ∧
      ([segW] : List SegRow) ≠ [] ∧
      (∃ res, annotate_copy_number [posA] [segW] ["major_cn"] = Except.ok res ∧
        (res.map (·.pos)).Perm ([posA].filter (fun p =>
          decide (p.sample_id ∈ ([segW] : List SegRow).map (·.sample_id) ∧
            p.chrom ∈ ([segW] : List SegRow).map (·.chr)))) ∧
        ∀ row ∈ res,
          (∀ g ∈ ([segW] : List SegRow),
            ¬(g.sample_id = row.pos.sample_id ∧ g.chr = row.pos.chrom)) →
          ∀ col, row.attrs col = none) :=
  ⟨by decide, by simp,
    annotate_keeps_segment_matched_rows [posA] [segW] ["major_cn"] (by decide) (by simp)⟩

/-! ## C3: duplicate (start, end) boundaries abort the annotation -/

theorem nodup_countP_eq_le_one {β : Type} [DecidableEq β] (b : β) :
    ∀ l : List β, l.Nodup → l.countP (fun x => decide (x = b)) ≤ 1 := by
  intro l
  induction l with
  | nil => intro _; simp
  | cons x xs ih =>
    intro hnd
    rcases List.nodup_cons.mp hnd with ⟨hx, hxs⟩
    rw [List.countP_cons]
    by_cases hxb : x = b
    · subst hxb
      have hz : xs.countP (fun y => decide (y = x)) = 0 := by
        rw [List.countP_eq_zero]
        intro a ha
        simp only [decide_eq_true_eq]
        intro heq
        exact hx (heq ▸ ha)
      simp [hz]
    · have hih := ih hxs
      have hcond : ¬(decide (x = b) = true) := by simp [hxb]
      rw [if_neg hcond]
      omega

/-- The only error `find_overlapping_segments` can raise is the duplicate
boundary `ValueError('duplicate columns')`. -/
theorem find_overlapping_error_eq (ps : List PosRow) (sg : List SegRow)
    (cols : List String) (e : String)
    (h : find_overlapping_segments ps sg cols = Except.error e) :
    e = "duplicate columns" := by
  simp only [find_overlapping_segments] at h
  by_cases hnd : ((List.insertionSort segLE sg).map (fun g => (g.start, g.end_))).Nodup
  · rw [if_pos hnd] at h
    exact absurd h (by simp)
  · rw [if_neg hnd] at h
    injection h with h
    exact h.symm

/-- If any enumerated partition fails the duplicate-boundary check, the whole
partition loop fails with that error and returns no result. -/
theorem annotateParts_error_of_mem (pos : List PosRow) (seg : List SegRow)
    (cols : List String) :
    ∀ parts : List (String × String),
      (∃ sc ∈ parts, ∃ e,
        find_overlapping_segments (partPos pos sc) (partSeg seg sc) cols =
          Except.error e) →
      annotateParts pos seg cols parts = Except.error "duplicate columns" := by
  intro parts
  induction parts with
  | nil =>
    rintro ⟨sc, hmem, _⟩
    exact absurd hmem (List.not_mem_nil sc)
  | cons sc rest ih =>
    rintro ⟨sc', hmem, e, herr⟩
    rcases hhead : find_overlapping_segments (partPos pos sc) (partSeg seg sc) cols with e' | res
    · rw [annotateParts, hhead, find_overlapping_error_eq _ _ _ _ hhead]
    · rw [annotateParts, hhead]
      have hrest : ∃ sc'' ∈ rest, ∃ e0,
          find_overlapping_segments (partPos pos sc'') (partSeg seg sc'') cols =
            Except.error e0 := by
        rcases List.mem_cons.mp hmem with rfl | hmem'
        · rw [hhead] at herr
          exact absurd herr (by simp)
        · exact ⟨sc', hmem', e, herr⟩
      rw [ih hrest]

/-- C3: whenever two segment rows of the same (sample, chromosome) partition
share an identical (start, end) pair, `annotate_copy_number` fails with the
duplicate-boundary `ValueError` — for every points table, including the empty
one — and no partial annotated result is returned. -/
theorem annotate_duplicate_boundary_error (pos : List PosRow) (seg : List SegRow)
    (cols : List String) (s c : String) (st en : ℤ)
    (hdup : 2 ≤ seg.countP
      (fun g => decide (g.sample_id = s ∧ g.chr = c ∧ g.start = st ∧ g.end_ = en))) :
    annotate_copy_number pos seg cols = Except.error "duplicate columns" := by
  have hex : ∃ g ∈ seg, g.sample_id = s ∧ g.chr = c ∧ g.start = st ∧ g.end_ = en := by
    have hpos : 0 < seg.countP
        (fun g => decide (g.sample_id = s ∧ g.chr = c ∧ g.start = st ∧ g.end_ = en)) := by
      omega
    rcases List.countP_pos.mp hpos with ⟨g, hg, hgp⟩
    exact ⟨g, hg, of_decide_eq_true hgp⟩
  obtain ⟨g0, hg0, hq1, hq2, _, _⟩ := hex
  have hsc : (s, c) ∈ annParts seg :=
    (mem_annParts seg (s, c)).mpr
      ⟨hq1 ▸ List.mem_map_of_mem _ hg0, hq2 ▸ List.mem_map_of_mem _ hg0⟩
  have hcnt : 2 ≤ (partSeg seg (s, c)).countP
      (fun g => decide (g.start = st ∧ g.end_ = en)) := by
    rw [partSeg, List.countP_filter, List.countP_filter]
    refine le_trans hdup (List.countP_mono_left ?_)
    intro g _ hq
    rcases of_decide_eq_true hq with ⟨h1, h2, h3, h4⟩
    simp [h1, h2, h3, h4]
  have hnod : ¬((List.insertionSort segLE (partSeg seg (s, c))).map
      (fun g => (g.start, g.end_))).Nodup := by
    intro hnd
    have hperm := (List.perm_insertionSort segLE (partSeg seg (s, c))).map
      (fun g => (g.start, g.end_))
    have hnd2 : ((partSeg seg (s, c)).map (fun g => (g.start, g.end_))).Nodup :=
      hperm.nodup_iff.mp hnd
    have h0 := nodup_countP_eq_le_one ((st, en) : ℤ × ℤ) _ hnd2
    rw [List.countP_map] at h0
    have hcm : (partSeg seg (s, c)).countP
          ((fun x => decide (x = ((st, en) : ℤ × ℤ))) ∘ (fun g => (g.start, g.end_))) =
        (partSeg seg (s, c)).countP (fun g => decide (g.start = st ∧ g.end_ = en)) := by
      refine List.countP_congr ?_
      intro g _
      simp [Function.comp, Prod.ext_iff]
    rw [hcm] at h0
    omega
  have herr : find_overlapping_segments (partPos pos (s, c)) (partSeg seg (s, c)) cols =
      Except.error "duplicate columns" := by
    simp only [find_overlapping_segments]
    rw [if_neg hnod]
  have hne : ¬((annParts seg).isEmpty = true) := by
    intro hemp
    rw [List.isEmpty_iff] at hemp
    rw [hemp] at hsc
    exact (List.not_mem_nil _) hsc
  rw [annotate_copy_number, if_neg hne]
  exact annotateParts_error_of_mem pos seg cols (annParts seg)
    ⟨(s, c), hsc, _, herr⟩

theorem annotate_duplicate_boundary_error_witness :
    2 ≤ ([segW, { segW with attrs := fun _ => 3 }] : List SegRow).countP
        (fun g => decide (g.sample_id = "c1" ∧ g.chr = "1" ∧ g.start = 0 ∧ g.end_ = 10)) ∧
      annotate_copy_number [] [segW, { segW with attrs := fun _ => 3 }] ["major_cn"] =
        Except.error "duplicate columns" :=
  ⟨by decide,
    annotate_duplicate_boundary_error [] [segW, { segW with attrs := fun _ => 3 }]
      ["major_cn"] "c1" "1" 0 10 (by decide)⟩

/-! ## C6: rows with missing copy number in the likelihood stage -/

/-- The per-row present-likelihood computation raises exactly when the row's
`major_cn` is missing, and the raised error is always numpy's NaN-to-integer
conversion error from the `np.arange` bound. -/
theorem calculate_present_error_iff (row : AnnRow) (e : ℝ) (msg : String) :
    calculate_likelihood_present row e = Except.error msg ↔
      row.attrs "major_cn" = none ∧ msg = "cannot convert float NaN to integer" := by
  cases hA : row.attrs "major_cn" with
  | none =>
    cases hB : row.attrs "minor_cn" with
    | none => simp [calculate_likelihood_present, hA, hB, eq_comm]
    | some mi => simp [calculate_likelihood_present, hA, hB, eq_comm]
  | some m =>
    cases hB : row.attrs "minor_cn" with
    | none =>
      simp only [calculate_likelihood_present, hA, hB]
      constructor
      · intro h
        split at h <;> exact absurd h (by simp)
      · rintro ⟨h, _⟩
        exact Option.noConfusion h
    | some mi => simp [calculate_likelihood_present, hA, hB]

/-- The row loop aborts with numpy's NaN error whenever any row has undefined
`major_cn`. -/
theorem computeRows_error_of_mem (e : ℝ) :
    ∀ df : List AnnRow, (∃ row ∈ df, row.attrs "major_cn" = none) →
      computeRows e df = Except.error "cannot convert float NaN to integer" := by
  intro df
  induction df with
  | nil =>
    rintro ⟨r, hr, _⟩
    exact absurd hr (List.not_mem_nil r)
  | cons row rest ih =>
    rintro ⟨r, hmem, hmaj⟩
    rcases hcase : calculate_likelihood_present row e with msg | v
    · have hmsg := ((calculate_present_error_iff row e msg).mp hcase).2
      rw [computeRows, hcase, hmsg]
    · have hrow_def : ¬(row.attrs "major_cn" = none) := by
        intro hnone
        have hcontr : calculate_likelihood_present row e =
            Except.error "cannot convert float NaN to integer" :=
          (calculate_present_error_iff row e _).mpr ⟨hnone, rfl⟩
        rw [hcase] at hcontr
        exact Except.noConfusion hcontr
      have hrest : ∃ r' ∈ rest, r'.attrs "major_cn" = none := by
        rcases List.mem_cons.mp hmem with rfl | h
        · exact absurd hmaj hrow_def
        · exact ⟨r, h, hmaj⟩
      rw [computeRows, hcase, ih hrest]

/-- C6 counterexample: on a table holding one annotated row whose copy-number
attributes are all missing, the likelihood stage *fails*: the `np.arange`
bound is NaN and numpy raises, so nothing is excluded and nothing is
computed — contradicting the claim that the stage does not fail and skips the
row. -/
theorem likelihood_missing_cn_stage_raises_cex :
    compute_log_likelihoods [{ pos := posA, attrs := fun _ => none }] (1 / 1000) =
      Except.error "cannot convert float NaN to integer" := rfl

/-- C6 (amended): rows with undefined copy number are not excluded, and the
stage is not failure-free: `df.apply` evaluates the present model on every
row, and on the first row whose `major_cn` is undefined `np.arange(1., NaN +
1., 1.)` makes numpy raise `ValueError: cannot convert float NaN to integer`,
so for every input table containing such a row the whole stage raises and no
likelihood (for any row) is returned. -/
theorem likelihood_stage_fails_on_missing_cn (df : List AnnRow) (e : ℝ)
    (row : AnnRow) (hrow : row ∈ df) (hmaj : row.attrs "major_cn" = none) :
    compute_log_likelihoods df e =
      Except.error "cannot convert float NaN to integer" := by
  have hne : ¬(df.isEmpty = true) := by
    intro hemp
    rw [List.isEmpty_iff] at hemp
    rw [hemp] at hrow
    exact (List.not_mem_nil row) hrow
  rw [compute_log_likelihoods, if_neg hne]
  exact computeRows_error_of_mem e df ⟨row, hrow, hmaj⟩

theorem likelihood_stage_fails_on_missing_cn_witness :
    (({ pos := posA, attrs := fun _ => none } : AnnRow) ∈
        ([{ pos := posA, attrs := fun _ => none }] : List AnnRow)) ∧
      ({ pos := posA, attrs := fun _ => none } : AnnRow).attrs "major_cn" = none ∧
      compute_log_likelihoods [{ pos := posA, attrs := fun _ => none }] (1 / 2) =
        Except.error "cannot convert float NaN to integer" :=
  ⟨List.mem_singleton.mpr rfl, rfl,
    likelihood_stage_fails_on_missing_cn [{ pos := posA, attrs := fun _ => none }]
      (1 / 2) _ (List.mem_singleton.mpr rfl) rfl⟩

/-! ## C9: the pipeline mutates its caller's allele_cn table -/

/-- C9 counterexample: with one read joined to one cluster (so execution
reaches the casts on lines 68-70) and a fractional copy-number value,
`compute_snv_log_likelihoods` does not leave its `allele_cn` argument as it
received it: after the call the caller's table holds the truncated values. -/
theorem compute_mutates_allele_cn_cex :
    (compute_snv_log_likelihoods [snvR] [cnHalf] clusOne).2 ≠ [cnHalf] := by
  decide

/-- C9 (amended): annotation leaves its arguments unchanged, but
`compute_snv_log_likelihoods` mutates its caller's `allele_cn` whenever the
read/cluster join is nonempty, i.e. whenever execution reaches the in-place
`astype(int)` casts of lines 68-70: after the call the caller's table holds
its copy-number columns truncated to integers (so it is unchanged exactly
when they were already integral).  When the join is empty the aggregation
raises at the `total_counts` assignment (line 61) before the casts, and the
caller's table is untouched. -/
theorem compute_allele_cn_post_state (d : List SnvRow) (cn : List CnRow)
    (cl : List ClusterRow) :
    (mergeClusters d cl = [] → (compute_snv_log_likelihoods d cn cl).2 = cn) ∧
    (mergeClusters d cl ≠ [] →
      (compute_snv_log_likelihoods d cn cl).2 = cn.map cnCast) ∧
    (mergeClusters d cl ≠ [] →
      (∀ g ∈ cn, g.total_cn.den = 1 ∧ g.minor_cn.den = 1 ∧ g.major_cn.den = 1) →
      (compute_snv_log_likelihoods d cn cl).2 = cn) := by
  have hcast : (∀ g ∈ cn, g.total_cn.den = 1 ∧ g.minor_cn.den = 1 ∧ g.major_cn.den = 1) →
      cn.map cnCast = cn := by
    intro h
    have hone : ∀ q : ℚ, q.den = 1 → (truncQ q : ℚ) = q := by
      intro q hq
      rw [truncQ, hq]
      simp only [Nat.cast_one, Int.tdiv_one]
      exact_mod_cast (Rat.den_eq_one_iff q).mp hq
    have hid : ∀ g ∈ cn, cnCast g = g := by
      intro g hg
      rcases h g hg with ⟨h1, h2, h3⟩
      rw [cnCast]
      rcases g with ⟨gc, gk, gs, ge, gt, gm, gj⟩
      simp only [CnRow.mk.injEq, and_true, true_and]
      exact ⟨hone _ h1, hone _ h2, hone _ h3⟩
    calc cn.map cnCast = cn.map id := List.map_congr_left (fun g hg => hid g hg)
    _ = cn := List.map_id cn
  refine ⟨?_, ?_, ?_⟩
  · intro hemp
    rw [compute_snv_log_likelihoods, if_pos (List.isEmpty_iff.mpr hemp)]
  · intro hne
    rw [compute_snv_log_likelihoods,
      if_neg (fun h => hne (List.isEmpty_iff.mp h))]
  · intro hne h
    rw [compute_snv_log_likelihoods,
      if_neg (fun h2 => hne (List.isEmpty_iff.mp h2))]
    exact hcast h

theorem compute_allele_cn_post_state_witness :
    mergeClusters [snvR] clusOne ≠ [] ∧
      (∀ g ∈ ([cnInt] : List CnRow),
        g.total_cn.den = 1 ∧ g.minor_cn.den = 1 ∧ g.major_cn.den = 1) ∧
      (compute_snv_log_likelihoods [snvR] [cnInt] clusOne).2 =
        ([cnInt] : List CnRow).map cnCast ∧
      (compute_snv_log_likelihoods [snvR] [cnInt] clusOne).2 = [cnInt] ∧
      mergeClusters [] ([] : List ClusterRow) = [] ∧
      (compute_snv_log_likelihoods [] [cnHalf] []).2 = [cnHalf] :=
  ⟨by decide, by decide,
    (compute_allele_cn_post_state [snvR] [cnInt] clusOne).2.1 (by decide),
    (compute_allele_cn_post_state [snvR] [cnInt] clusOne).2.2 (by decide) (by decide),
    rfl,
    (compute_allele_cn_post_state [] [cnHalf] []).1 rfl⟩
/-! ## C7: duplicated cluster assignments are not detected -/

theorem countP_flatMap {α β : Type} (f : α → List β) (p : β → Bool) :
    ∀ l : List α, (l.flatMap f).countP p = (l.map (fun x => (f x).countP p)).sum := by
  intro l
  induction l with
  | nil => simp
  | cons x xs ih => simp [List.flatMap_cons, List.countP_append, ih]

/-- C7 counterexample: with a cluster-assignment table in which sample "s1"
appears in two rows, `compute_snv_log_likelihoods` does not fail — it returns
a table (there is no AmbiguousClusterAssignment check anywhere). -/
theorem ambiguous_cluster_no_error_cex :
    2 ≤ clusDup.countP (fun a => decide (a.sample_id = "s1")) ∧
      exceptOk (compute_snv_log_likelihoods [snvR] [cnInt] clusDup).1 = true :=
  ⟨by decide, rfl⟩

/-- C7 (amended): the aggregation performs no ambiguity check on the cluster
assignment: the join succeeds and pairs every read row with every matching
assignment row, so a sample assigned in two or more rows contributes its reads
once per matching row (duplicated assignments double-count reads rather than
raising an error). -/
theorem merge_duplicate_assignment_rows (d : List SnvRow) (cl : List ClusterRow)
    (r : SnvRow) (hr : r ∈ d)
    (h2 : 2 ≤ cl.countP (fun a => decide (a.sample_id = r.sample_id))) :
    2 ≤ (mergeClusters d cl).countP
      (fun m => decide (m.sample_id = r.sample_id ∧ m.chrom = r.chrom ∧ m.ref = r.ref ∧
        m.alt = r.alt ∧ m.coord = r.coord ∧ m.ref_counts = r.ref_counts ∧
        m.alt_counts = r.alt_counts)) := by
  rw [mergeClusters, countP_flatMap]
  have hval : ((cl.filter (fun a => decide (a.sample_id = r.sample_id))).map
      (fun a => ({ sample_id := r.sample_id, chrom := r.chrom, ref := r.ref, alt := r.alt
                   cluster_id := a.cluster_id, coord := r.coord
                   ref_counts := r.ref_counts, alt_counts := r.alt_counts } : MRow))).countP
      (fun m => decide (m.sample_id = r.sample_id ∧ m.chrom = r.chrom ∧ m.ref = r.ref ∧
        m.alt = r.alt ∧ m.coord = r.coord ∧ m.ref_counts = r.ref_counts ∧
        m.alt_counts = r.alt_counts)) =
      (cl.filter (fun a => decide (a.sample_id = r.sample_id))).length := by
    refine Eq.trans (List.countP_eq_length.mpr ?_) (List.length_map _ _)
    intro m hm
    rcases List.mem_map.mp hm with ⟨a, _, rfl⟩
    simp
  have hlen : (cl.filter (fun a => decide (a.sample_id = r.sample_id))).length =
      cl.countP (fun a => decide (a.sample_id = r.sample_id)) :=
    (List.countP_eq_length_filter _ _).symm
  calc 2 ≤ cl.countP (fun a => decide (a.sample_id = r.sample_id)) := h2
  _ = _ := by rw [← hlen, ← hval]
  _ ≤ _ := List.single_le_sum (fun _ _ => Nat.zero_le _) _ (List.mem_map_of_mem _ hr)

theorem merge_duplicate_assignment_rows_witness :
    snvR ∈ [snvR] ∧
      2 ≤ clusDup.countP (fun a => decide (a.sample_id = snvR.sample_id)) ∧
      2 ≤ (mergeClusters [snvR] clusDup).countP
        (fun m => decide (m.sample_id = snvR.sample_id ∧ m.chrom = snvR.chrom ∧
          m.ref = snvR.ref ∧ m.alt = snvR.alt ∧ m.coord = snvR.coord ∧
          m.ref_counts = snvR.ref_counts ∧ m.alt_counts = snvR.alt_counts)) :=
  ⟨List.mem_singleton.mpr rfl, by decide,
    merge_duplicate_assignment_rows [snvR] clusDup snvR
      (List.mem_singleton.mpr rfl) (by decide)⟩

/-! ## C5: exactly one aggregated row per (locus, cluster) pair -/

theorem nodup_mem_countP_eq_one {β : Type} [DecidableEq β] (b : β) (l : List β)
    (hnd : l.Nodup) (hb : b ∈ l) : l.countP (fun x => decide (x = b)) = 1 := by
  have hle := nodup_countP_eq_le_one b l hnd
  have hpos : 0 < l.countP (fun x => decide (x = b)) :=
    List.countP_pos.mpr ⟨b, hb, by simp⟩
  omega

/-- C5: after aggregation, every variant locus appearing in the joined read
data and every cluster appearing in the joined read data yield exactly one
output row for the (locus, cluster) pair; each row's counts are the sums over
all joined read rows with that locus and cluster — zero (the empty sum, i.e.
the `fillna(0)` backfill) when no read contributes. -/
theorem aggregate_one_row_per_pair (d : List SnvRow) (cl : List ClusterRow)
    (l : Locus) (c : String)
    (hl : l ∈ (mergeClusters d cl).map snvLocus)
    (hc : c ∈ (mergeClusters d cl).map (·.cluster_id)) :
    (aggregateCounts (mergeClusters d cl)).countP
        (fun r => decide ((r.chrom, r.coord, r.ref, r.alt) = l ∧ r.cluster_id = c)) = 1 ∧
    ∀ r ∈ aggregateCounts (mergeClusters d cl),
      r.alt_counts = (((mergeClusters d cl).filter
          (fun m => decide (snvLocus m = (r.chrom, r.coord, r.ref, r.alt) ∧
            m.cluster_id = r.cluster_id))).map (·.alt_counts)).sum ∧
      r.ref_counts = (((mergeClusters d cl).filter
          (fun m => decide (snvLocus m = (r.chrom, r.coord, r.ref, r.alt) ∧
            m.cluster_id = r.cluster_id))).map (·.ref_counts)).sum := by
  have hcls_nd : (uniqKeys ((mergeClusters d cl).map (·.cluster_id))).Nodup :=
    nodup_uniqKeys _
  have hcls_mem : c ∈ uniqKeys ((mergeClusters d cl).map (·.cluster_id)) :=
    (mem_uniqKeys _ _).mpr hc
  have hloci_nd : (uniqKeys ((mergeClusters d cl).map snvLocus)).Nodup :=
    nodup_uniqKeys _
  have hloci_mem : l ∈ uniqKeys ((mergeClusters d cl).map snvLocus) :=
    (mem_uniqKeys _ _).mpr hl
  constructor
  · rw [aggregateCounts, countP_flatMap]
    have hstep : ∀ l' ∈ uniqKeys ((mergeClusters d cl).map snvLocus),
        ((uniqKeys ((mergeClusters d cl).map (·.cluster_id))).map
            (aggRow (mergeClusters d cl) l')).countP
          (fun r => decide ((r.chrom, r.coord, r.ref, r.alt) = l ∧ r.cluster_id = c)) =
        if l = l' then 1 else 0 := by
      intro l' _
      rw [List.countP_map]
      by_cases hll : l = l'
      · subst hll
        rw [if_pos rfl]
        have hcong : ∀ c' ∈ uniqKeys ((mergeClusters d cl).map (·.cluster_id)),
            (((fun r => decide ((r.chrom, r.coord, r.ref, r.alt) = l ∧ r.cluster_id = c)) ∘
              aggRow (mergeClusters d cl) l) c' = true ↔
              (fun x => decide (x = c)) c' = true) := by
          intro c' _
          simp [Function.comp, aggRow, Prod.mk.eta]
        rw [List.countP_congr hcong]
        exact nodup_mem_countP_eq_one c _ hcls_nd hcls_mem
      · rw [if_neg hll, List.countP_eq_zero]
        intro c' _
        simp only [Function.comp, aggRow, decide_eq_true_eq, Prod.mk.eta]
        intro hcontr
        exact hll hcontr.1.symm
    rw [List.map_congr_left hstep,
      sum_map_ite_eq l 1 (uniqKeys ((mergeClusters d cl).map snvLocus)) hloci_nd,
      if_pos hloci_mem]
  · intro r hr
    rw [aggregateCounts] at hr
    rcases List.mem_flatMap.mp hr with ⟨l', _, hr2⟩
    rcases List.mem_map.mp hr2 with ⟨c', _, rfl⟩
    exact ⟨rfl, rfl⟩

theorem aggregate_one_row_per_pair_witness :
    (("1", 100, "A", "T") : Locus) ∈ (mergeClusters [snvR] clusOne).map snvLocus ∧
      "c1" ∈ (mergeClusters [snvR] clusOne).map (·.cluster_id) ∧
      ((aggregateCounts (mergeClusters [snvR] clusOne)).countP
          (fun r => decide ((r.chrom, r.coord, r.ref, r.alt) =
            (("1", 100, "A", "T") : Locus) ∧ r.cluster_id = "c1")) = 1 ∧
        ∀ r ∈ aggregateCounts (mergeClusters [snvR] clusOne),
          r.alt_counts = (((mergeClusters [snvR] clusOne).filter
              (fun m => decide (snvLocus m = (r.chrom, r.coord, r.ref, r.alt) ∧
                m.cluster_id = r.cluster_id))).map (·.alt_counts)).sum ∧
          r.ref_counts = (((mergeClusters [snvR] clusOne).filter
              (fun m => decide (snvLocus m = (r.chrom, r.coord, r.ref, r.alt) ∧
                m.cluster_id = r.cluster_id))).map (·.ref_counts)).sum) :=
  ⟨by decide, by decide,
    aggregate_one_row_per_pair [snvR] clusOne ("1", 100, "A", "T") "c1"
      (by decide) (by decide)⟩

/-! ## C8: monotonicity of the present model in alt_counts -/

/-- C8 counterexample: with major_cn = 1, minor_cn = 1 (so the single
candidate VAF is 1/2), error_rate = 1/2 and total_counts = 2, raising
alt_counts from 1 to 2 strictly *decreases* `log_likelihood_present`
(log(1/4) < log(1/2)): the present log-likelihood is not monotonically
non-decreasing in alt_counts. -/
theorem log_sum_exp_singleton (x : ℝ) : log_sum_exp [x] = x := by
  rw [log_sum_exp]
  simp [Real.log_exp]

theorem present_not_monotone_cex :
    log_likelihood_present 1 (1 + 1) (1 / 2) 2 2 <
      log_likelihood_present 1 (1 + 1) (1 / 2) 1 2 := by
  have hlist : ∀ x n : ℤ, (List.range (1 : ℤ).toNat).map
      (fun (i : ℕ) => log_binomial_pdf x n (((i : ℝ) + 1) / (((1 : ℤ) + 1 : ℤ) : ℝ))) =
      [log_binomial_pdf x n (1 / 2)] := by
    intro x n
    have h1 : (1 : ℤ).toNat = 1 := rfl
    rw [h1, List.range_succ, List.range_zero]
    simp only [List.nil_append, List.map_cons, List.map_nil, List.cons.injEq, and_true]
    norm_num
  have h2 : log_likelihood_present 1 (1 + 1) (1 / 2) 2 2 = Real.log (1 / 4) := by
    rw [log_likelihood_present, if_neg (by norm_num), hlist 2 2, log_sum_exp_singleton,
      log_binomial_pdf]
    congr 1
    norm_num [show (2 : ℤ).toNat = 2 from rfl]
  have h1 : log_likelihood_present 1 (1 + 1) (1 / 2) 1 2 = Real.log (1 / 2) := by
    rw [log_likelihood_present, if_neg (by norm_num), hlist 1 2, log_sum_exp_singleton,
      log_binomial_pdf]
    congr 1
    norm_num [show (2 : ℤ).toNat = 2 from rfl]
  rw [h1, h2]
  exact Real.log_lt_log (by norm_num) (by norm_num)

theorem binom_pdf_pos (n x : ℕ) (p : ℝ) (h0 : 0 < p) (h1 : p < 1) (hx : x ≤ n) :
    0 < (n.choose x : ℝ) * p ^ x * (1 - p) ^ (n - x) := by
  have hc : 0 < (n.choose x : ℝ) := by exact_mod_cast Nat.choose_pos hx
  have hp : 0 < p ^ x := pow_pos h0 x
  have hq : 0 < (1 - p) ^ (n - x) := pow_pos (by linarith) (n - x)
  exact mul_pos (mul_pos hc hp) hq

theorem exp_log_binomial_pdf (x n : ℤ) (p : ℝ) (h0 : 0 < p) (h1 : p < 1)
    (hx : x.toNat ≤ n.toNat) :
    Real.exp (log_binomial_pdf x n p) =
      (n.toNat.choose x.toNat : ℝ) * p ^ x.toNat * (1 - p) ^ (n.toNat - x.toNat) := by
  rw [log_binomial_pdf, Real.exp_log (binom_pdf_pos _ _ _ h0 h1 hx)]

/-- One-candidate step inequality: shifting one success from the error model to
a candidate with success probability `r ≥ e` does not decrease the product. -/
theorem binom_term_step (n k : ℕ) (r e : ℝ) (hk : k + 1 ≤ n)
    (her : e ≤ r) (he0 : 0 ≤ e) (hr1 : r ≤ 1) :
    ((n.choose k : ℝ) * r ^ k * (1 - r) ^ (n - k)) *
        ((n.choose (k + 1) : ℝ) * e ^ (k + 1) * (1 - e) ^ (n - (k + 1))) ≤
      ((n.choose (k + 1) : ℝ) * r ^ (k + 1) * (1 - r) ^ (n - (k + 1))) *
        ((n.choose k : ℝ) * e ^ k * (1 - e) ^ (n - k)) := by
  have hnk : n - k = (n - (k + 1)) + 1 := by omega
  have key : (1 - r) * e ≤ r * (1 - e) := by nlinarith
  have hB : 0 ≤ (n.choose k : ℝ) * (n.choose (k + 1) : ℝ) * r ^ k * e ^ k *
      (1 - r) ^ (n - (k + 1)) * (1 - e) ^ (n - (k + 1)) := by
    have hrk : 0 ≤ r ^ k := pow_nonneg (le_trans he0 her) k
    have hek : 0 ≤ e ^ k := pow_nonneg he0 k
    have hr' : 0 ≤ (1 - r) ^ (n - (k + 1)) := pow_nonneg (by linarith) _
    have he' : 0 ≤ (1 - e) ^ (n - (k + 1)) := pow_nonneg (by linarith) _
    exact mul_nonneg (mul_nonneg (mul_nonneg (mul_nonneg
      (mul_nonneg (Nat.cast_nonneg _) (Nat.cast_nonneg _)) hrk) hek) hr') he'
  calc ((n.choose k : ℝ) * r ^ k * (1 - r) ^ (n - k)) *
        ((n.choose (k + 1) : ℝ) * e ^ (k + 1) * (1 - e) ^ (n - (k + 1)))
      = ((n.choose k : ℝ) * (n.choose (k + 1) : ℝ) * r ^ k * e ^ k *
          (1 - r) ^ (n - (k + 1)) * (1 - e) ^ (n - (k + 1))) * ((1 - r) * e) := by
        rw [hnk]; ring
    _ ≤ ((n.choose k : ℝ) * (n.choose (k + 1) : ℝ) * r ^ k * e ^ k *
          (1 - r) ^ (n - (k + 1)) * (1 - e) ^ (n - (k + 1))) * (r * (1 - e)) :=
        mul_le_mul_of_nonneg_left key hB
    _ = ((n.choose (k + 1) : ℝ) * r ^ (k + 1) * (1 - r) ^ (n - (k + 1))) *
        ((n.choose k : ℝ) * e ^ k * (1 - e) ^ (n - k)) := by
        rw [hnk]; ring

/-- C8 (amended): with at least one minor copy (so every candidate VAF is
below 1) and an error rate no larger than the smallest candidate VAF
`1 / total_cn`, the log-likelihood *ratio* of present over absent,
`log_likelihood_present - log_likelihood_absent`, never decreases when
alt_counts is increased by one at fixed total_counts. -/
theorem present_minus_absent_monotone_step (c_m mi n_v n_t : ℤ) (e_s : ℝ)
    (hcm : 1 ≤ c_m) (hmi : 1 ≤ mi) (he0 : 0 < e_s)
    (heR : e_s ≤ 1 / ((c_m + mi : ℤ) : ℝ))
    (hv : 0 ≤ n_v) (hvt : n_v + 1 ≤ n_t) :
    log_likelihood_present c_m (c_m + mi) e_s n_v n_t -
        log_likelihood_absent e_s n_v n_t ≤
      log_likelihood_present c_m (c_m + mi) e_s (n_v + 1) n_t -
        log_likelihood_absent e_s (n_v + 1) n_t := by
  have hctR : ((c_m + mi : ℤ) : ℝ) = (c_m : ℝ) + (mi : ℝ) := by push_cast; ring
  have hcmR : (1 : ℝ) ≤ (c_m : ℝ) := by exact_mod_cast hcm
  have hmiR : (1 : ℝ) ≤ (mi : ℝ) := by exact_mod_cast hmi
  have hctpos : (0 : ℝ) < ((c_m + mi : ℤ) : ℝ) := by rw [hctR]; linarith
  have he1 : e_s < 1 :=
    lt_of_le_of_lt heR ((div_lt_one hctpos).mpr (by rw [hctR]; linarith))
  have hrpos : ∀ i : ℕ, (0 : ℝ) < ((i : ℝ) + 1) / ((c_m + mi : ℤ) : ℝ) := by
    intro i
    apply div_pos _ hctpos
    positivity
  have hrlt1 : ∀ i, i < c_m.toNat → ((i : ℝ) + 1) / ((c_m + mi : ℤ) : ℝ) < 1 := by
    intro i hi
    rw [div_lt_one hctpos]
    have hi2 : (i : ℤ) + 1 ≤ c_m := by omega
    have hi3 : (i : ℝ) + 1 ≤ (c_m : ℝ) := by exact_mod_cast hi2
    rw [hctR]
    linarith
  have her : ∀ i : ℕ, e_s ≤ ((i : ℝ) + 1) / ((c_m + mi : ℤ) : ℝ) := by
    intro i
    refine le_trans heR ?_
    apply (div_le_div_right hctpos).mpr
    have : (0 : ℝ) ≤ (i : ℝ) := Nat.cast_nonneg i
    linarith
  have hcm0 : c_m ≠ 0 := by omega
  have hk1 : (n_v + 1).toNat = n_v.toNat + 1 := by omega
  have hkn : n_v.toNat + 1 ≤ n_t.toNat := by omega
  have hpres : ∀ m : ℤ, m.toNat ≤ n_t.toNat →
      log_likelihood_present c_m (c_m + mi) e_s m n_t =
        Real.log (((List.range c_m.toNat).map (fun (i : ℕ) =>
          (n_t.toNat.choose m.toNat : ℝ) *
            (((i : ℝ) + 1) / ((c_m + mi : ℤ) : ℝ)) ^ m.toNat *
            (1 - ((i : ℝ) + 1) / ((c_m + mi : ℤ) : ℝ)) ^ (n_t.toNat - m.toNat))).sum) := by
    intro m hmn
    rw [log_likelihood_present, if_neg hcm0, log_sum_exp, List.map_map]
    congr 1
    congr 1
    apply List.map_congr_left
    intro i hi
    have hstep := exp_log_binomial_pdf m n_t (((i : ℝ) + 1) / ((c_m + mi : ℤ) : ℝ))
      (hrpos i) (hrlt1 i (List.mem_range.mp hi)) hmn
    simpa [Function.comp] using hstep
  have habs : ∀ m : ℤ, log_likelihood_absent e_s m n_t =
      Real.log ((n_t.toNat.choose m.toNat : ℝ) * e_s ^ m.toNat *
        (1 - e_s) ^ (n_t.toNat - m.toNat)) := fun _ => rfl
  have hSpos : ∀ j : ℕ, j ≤ n_t.toNat →
      0 < ((List.range c_m.toNat).map (fun (i : ℕ) =>
        (n_t.toNat.choose j : ℝ) *
          (((i : ℝ) + 1) / ((c_m + mi : ℤ) : ℝ)) ^ j *
          (1 - ((i : ℝ) + 1) / ((c_m + mi : ℤ) : ℝ)) ^ (n_t.toNat - j))).sum := by
    intro j hj
    apply List.sum_pos
    · intro a ha
      rcases List.mem_map.mp ha with ⟨i, hi, rfl⟩
      exact binom_pdf_pos _ _ _ (hrpos i) (hrlt1 i (List.mem_range.mp hi)) hj
    · have hc0 : c_m.toNat ≠ 0 := by omega
      simp [List.range_eq_nil, hc0]
  have hApos : ∀ j : ℕ, j ≤ n_t.toNat →
      0 < (n_t.toNat.choose j : ℝ) * e_s ^ j * (1 - e_s) ^ (n_t.toNat - j) :=
    fun j hj => binom_pdf_pos _ _ _ he0 he1 hj
  rw [hpres n_v (by omega), hpres (n_v + 1) (by omega), habs n_v, habs (n_v + 1), hk1]
  rw [sub_le_sub_iff]
  have hS1 := hSpos n_v.toNat (by omega)
  have hS2 := hSpos (n_v.toNat + 1) (by omega)
  have hA1 := hApos n_v.toNat (by omega)
  have hA2 := hApos (n_v.toNat + 1) (by omega)
  rw [← Real.log_mul (ne_of_gt hS1) (ne_of_gt hA2),
    ← Real.log_mul (ne_of_gt hS2) (ne_of_gt hA1)]
  apply Real.log_le_log (mul_pos hS1 hA2)
  rw [← List.sum_map_mul_right, ← List.sum_map_mul_right]
  apply List.sum_le_sum
  intro i hi
  exact binom_term_step n_t.toNat n_v.toNat _ e_s hkn (her i) (le_of_lt he0)
    (le_of_lt (hrlt1 i (List.mem_range.mp hi)))

theorem present_minus_absent_monotone_step_witness :
    (1 : ℤ) ≤ 1 ∧ (1 : ℤ) ≤ 1 ∧ (0 : ℝ) < 1 / 1000 ∧
      (1 : ℝ) / 1000 ≤ 1 / (((1 : ℤ) + 1 : ℤ) : ℝ) ∧ (0 : ℤ) ≤ 3 ∧ (3 : ℤ) + 1 ≤ 10 ∧
      (log_likelihood_present 1 (1 + 1) (1 / 1000) 3 10 -
          log_likelihood_absent (1 / 1000) 3 10 ≤
        log_likelihood_present 1 (1 + 1) (1 / 1000) (3 + 1) 10 -
          log_likelihood_absent (1 / 1000) (3 + 1) 10) :=
  ⟨le_refl 1, le_refl 1, by norm_num, by norm_num, by norm_num, by norm_num,
    present_minus_absent_monotone_step 1 1 3 10 (1 / 1000) (le_refl 1) (le_refl 1)
      (by norm_num) (by norm_num) (by norm_num) (by norm_num)⟩
